import Mathlib

/-!
Verification of the encoding-aware remote file transfer bridge of the CMS BFF
(`src/backend/main.py`).  The Python source is shallowly embedded: pure string
helpers become Lean functions over `List Char` / `List Nat` (bytes), and the
two session-scoped endpoint handlers (`ftp_read`, `ftp_write`) become pure
functions parameterized by oracles for the external collaborators (the remote
FTP session, the statistical charset detector `chardet`, and the mime-type
guesser).  Each handler also returns the list of session events it performed,
so that "no remote session is opened" is expressible as an empty event list.
-/

namespace CmsBff

/-! ### Python string primitives, modelled over `List Char`.

All helpers are written to follow the CPython implementations that
`src/backend/main.py` calls (`posixpath.normpath`, `str.split('/')`,
`str.strip`, `str.lower` on ASCII, `os.path.splitext`).  They use structural
recursion only, so that concrete runs reduce inside the kernel. -/

/-- Python `str.split('/')`: split on every slash, keeping empty parts. -/
def splitSlash : List Char → List (List Char)
  | [] => [[]]
  | c :: t =>
    match splitSlash t with
    | [] => [[c]]
    | h :: r => if c = '/' then [] :: h :: r else (c :: h) :: r

/-- One step of the component loop of CPython `posixpath.normpath`:
skip empty and `.` components, keep `..` only when it cannot be cancelled,
otherwise pop the previous component. -/
def normStep (isl : Nat) (acc : List (List Char)) (comp : List Char) : List (List Char) :=
  if comp = [] ∨ comp = ['.'] then acc
  else if comp ≠ ['.', '.'] ∨ (isl = 0 ∧ acc = []) ∨ (acc ≠ [] ∧ acc.getLast? = some ['.', '.']) then
    acc ++ [comp]
  else if acc ≠ [] then acc.dropLast
  else acc

/-- CPython `posixpath.normpath` (the platform the service is deployed on is
POSIX, see `src/api/index.py`), on character lists. -/
def normPathChars (cs : List Char) : List Char :=
  if cs = [] then ['.']
  else
    let isl : Nat :=
      match cs with
      | '/' :: '/' :: '/' :: _ => 1
      | '/' :: '/' :: _ => 2
      | '/' :: _ => 1
      | _ => 0
    let comps := (splitSlash cs).foldl (normStep isl) []
    let res := List.replicate isl '/' ++ List.intercalate ['/'] comps
    if res = [] then ['.'] else res

/-- `os.path.normpath(path).replace("\\", "/")` from `safe_path`
(`src/backend/main.py:108`); the pattern is a single character, so the
replacement is a character map. -/
def normalizedChars (p : String) : List Char :=
  (normPathChars p.data).map fun c => if c = '\\' then '/' else c

/-- Bool test that `pat` occurs as a contiguous substring of the list. -/
def hasSub (pat : List Char) : List Char → Bool
  | [] => pat.isEmpty
  | c :: t => pat.isPrefixOf (c :: t) || hasSub pat t

/-- The rejection condition of `safe_path` (`src/backend/main.py:109`):
`normalized.startswith("..") or "/../" in normalized`. -/
def escapesRoot (cs : List Char) : Bool :=
  "..".data.isPrefixOf cs || hasSub "/../".data cs

/-- Python `str.rstrip("/")`. -/
def rstripSlash (cs : List Char) : List Char :=
  (cs.reverse.dropWhile (fun c => c == '/')).reverse

/-- Error taxonomy: the `HTTPException`s raised by `src/backend/main.py`,
identified by which handler clause raises them. -/
inductive Err where
  | invalidPath : Err
  | encodeError : String → Err
  | transferError : String → Err
deriving DecidableEq

/-- The HTTP status code each error is raised with. -/
def Err.status : Err → Nat
  | Err.invalidPath => 400
  | Err.encodeError _ => 400
  | Err.transferError _ => 502

deriving instance DecidableEq for Except

/-- `safe_path` (`src/backend/main.py:106-111`): normalize, reject a
normalized form that begins with `..` or contains `/../`, else prefix the
configured root. -/
def safe_path (root path : String) : Except Err String :=
  let normalized := normalizedChars path
  if escapesRoot normalized then Except.error Err.invalidPath
  else Except.ok (String.mk
    (rstripSlash root.data ++ '/' :: normalized.dropWhile (fun c => c == '/')))

example : normPathChars "/../../etc/passwd".data = "/etc/passwd".data := by decide
example : safe_path "/" "/../../etc/passwd" = Except.ok "/etc/passwd" := by decide
example : safe_path "/base" "../x" = Except.error Err.invalidPath := by decide
example : safe_path "/base/" "a/../b/c" = Except.ok "/base/b/c" := by decide
example : safe_path "/base" "a\\..\\b" = Except.error Err.invalidPath := by decide

/-! ### The embedded-declaration scanner (`extract_meta_charset`).

The Python source applies two `re.search` calls with flag `re.I` to the first
4096 bytes decoded as ASCII with `errors="ignore"`.  The two patterns are
embedded here through a small backtracking matcher with Python semantics
(leftmost start, greedy quantifiers with backtracking, case-insensitive
literals).  Both patterns consist of literals, character classes under `?`,
`*` or `+`, and one final greedy capturing group, which is what `Tok` encodes. -/

/-- Python whitespace as matched by `\s` and stripped by `str.strip()` on
ASCII text: space, `\t`, `\n`, `\v`, `\f`, `\r` and the separator control
characters `\x1c`-`\x1f`. -/
def isPySpace (c : Char) : Bool :=
  decide (c.toNat = 32 ∨ (9 ≤ c.toNat ∧ c.toNat ≤ 13) ∨ (28 ≤ c.toNat ∧ c.toNat ≤ 31))

/-- One regex token: a case-insensitive literal, a single-character class,
an optional class, a starred class, a plus class, or the final greedy
capturing plus-group. -/
inductive Tok where
  | litCI : List Char → Tok
  | oneC : (Char → Bool) → Tok
  | optC : (Char → Bool) → Tok
  | starC : (Char → Bool) → Tok
  | plusC : (Char → Bool) → Tok
  | grpPlus : (Char → Bool) → Tok

/-- Case-insensitive literal prefix test (`re.I` on ASCII literals). -/
def ciPrefix : List Char → List Char → Bool
  | [], _ => true
  | _ :: _, [] => false
  | a :: as, b :: bs => (a.toLower == b.toLower) && ciPrefix as bs

/-- Match a token list at the start of the input, with greedy backtracking;
returns the text captured by the final `grpPlus` group on success. -/
def mt : List Tok → List Char → Option (List Char)
  | [], _ => none
  | [Tok.grpPlus p], cs =>
    let g := cs.takeWhile p
    if g.isEmpty then none else some g
  | Tok.grpPlus _ :: _ :: _, _ => none
  | Tok.litCI l :: rest, cs => if ciPrefix l cs then mt rest (cs.drop l.length) else none
  | Tok.oneC p :: rest, cs =>
    match cs with
    | [] => none
    | c :: cs2 => if p c then mt rest cs2 else none
  | Tok.optC p :: rest, cs =>
    match cs with
    | [] => mt rest []
    | c :: cs2 => if p c then (mt rest cs2).orElse (fun _ => mt rest (c :: cs2)) else mt rest (c :: cs2)
  | Tok.starC p :: rest, cs =>
    (List.range ((cs.takeWhile p).length + 1)).reverse.findSome? fun k => mt rest (cs.drop k)
  | Tok.plusC p :: rest, cs =>
    (((List.range ((cs.takeWhile p).length + 1)).filter fun k => k != 0).reverse).findSome?
      fun k => mt rest (cs.drop k)

/-- Python `re.search`: try the match at every start position, leftmost wins. -/
def reSearch (toks : List Tok) : List Char → Option (List Char)
  | [] => mt toks []
  | c :: t => (mt toks (c :: t)).orElse fun _ => reSearch toks t

/-- The character class of the capturing group of the first pattern,
the complement of `["\'\s;>]`. -/
def pat1Group (c : Char) : Bool :=
  !(c == '"' || c == '\'' || isPySpace c || c == ';' || c == '>')

/-- The character class of the capturing group of the second pattern,
the complement of `["\'\s;]`. -/
def pat2Group (c : Char) : Bool :=
  !(c == '"' || c == '\'' || isPySpace c || c == ';')

/-- The quote class `["\']`. -/
def isQuote (c : Char) : Bool := c == '"' || c == '\''

/-- Pattern `<meta[^>]+charset=["\']?([^"\'\s;>]+)` with `re.I`
(`src/backend/main.py:123`). -/
def pat1 : List Tok :=
  [Tok.litCI "<meta".data, Tok.plusC (fun c => !(c == '>')), Tok.litCI "charset=".data,
   Tok.optC isQuote, Tok.grpPlus pat1Group]

/-- Pattern `content=["\'][^"\']*charset=([^"\'\s;]+)` with `re.I`
(`src/backend/main.py:127`). -/
def pat2 : List Tok :=
  [Tok.litCI "content=".data, Tok.oneC isQuote, Tok.starC (fun c => !(isQuote c)),
   Tok.litCI "charset=".data, Tok.grpPlus pat2Group]

/-- The capture predicates of the group tokens of a pattern. -/
def grpPreds (toks : List Tok) : List (Char → Bool) :=
  toks.filterMap fun tk =>
    match tk with
    | Tok.grpPlus p => some p
    | _ => none

/-- The snippet the two searches run on: the first 4096 bytes, decoded as
ASCII with `errors="ignore"` (bytes `≥ 0x80` are dropped). -/
def snippetOf (raw : List Nat) : List Char :=
  ((raw.take 4096).filter fun b => decide (b < 128)).map Char.ofNat

/-- Python `str.strip()` on the captured group. -/
def pyStrip (cs : List Char) : List Char :=
  ((cs.dropWhile isPySpace).reverse.dropWhile isPySpace).reverse

/-- `m.group(1).strip().lower()` applied to a captured group. -/
def tagGroup (g : List Char) : String := String.mk ((pyStrip g).map Char.toLower)

/-- `extract_meta_charset` (`src/backend/main.py:114-130`): search the ASCII
snippet of the first 4096 bytes for the explicit `charset=` pattern, then for
the `content=...charset=` pattern; first match wins. -/
def extract_meta_charset (raw : List Nat) : Option String :=
  match reSearch pat1 (snippetOf raw) with
  | some g => some (tagGroup g)
  | none => (reSearch pat2 (snippetOf raw)).map tagGroup

example :
    extract_meta_charset ("<meta charset=\"Shift_JIS\"><p>".data.map Char.toNat) =
      some "shift_jis" := by decide
example :
    extract_meta_charset
        ("<meta http-equiv=\"Content-Type\" content=\"text/html; charset=EUC-JP\">".data.map
          Char.toNat) = some "euc-jp" := by decide
example :
    extract_meta_charset ("content=\"text/html; charset=utf-8\"".data.map Char.toNat) =
      some "utf-8" := by decide
example : extract_meta_charset ("<p>hello</p>".data.map Char.toNat) = none := by decide
example : extract_meta_charset ("<meta charset=x>".data.map (fun c => c.toNat + 128)) = none := by
  decide

/-! ### Encoding alias table and the modelled codec layer. -/

/-- The lookup key `enc.lower().replace("-", "_")` used by
`normalize_encoding` (`src/backend/main.py:142`). -/
def pyEncKey (s : String) : String :=
  String.mk (s.data.map fun c => if c.toLower = '-' then '_' else c.toLower)

/-- `normalize_encoding` (`src/backend/main.py:133-142`): look the key up in
`ENCODING_ALIASES` and return the input unchanged when unmapped.  The source
dictionary literally contains the key `"euc-jp"`, kept here verbatim even
though the hyphen replacement makes that entry unreachable. -/
def normalize_encoding (enc : String) : String :=
  match pyEncKey enc with
  | "shift_jis" => "cp932"
  | "shiftjis" => "cp932"
  | "sjis" => "cp932"
  | "euc-jp" => "euc_jp"
  | "eucjp" => "euc_jp"
  | _ => enc

/-- The keys of the `ENCODING_ALIASES` dictionary (`src/backend/main.py:133`),
the "known alias spellings". -/
def aliasKeys : List String := ["shift_jis", "shiftjis", "sjis", "euc-jp", "eucjp"]

example : normalize_encoding "Shift-JIS" = "cp932" := by decide
example : normalize_encoding "euc-jp" = "euc-jp" := by decide
example : normalize_encoding "UTF-8" = "UTF-8" := by decide

/-- The replacement character produced by `errors="replace"` decoding. -/
def repl : Char := Char.ofNat 0xFFFD

/-- A codec of the modelled codec layer: which characters it can strictly
encode, the bytes of one character, and total lenient (`errors="replace"`)
decoding. -/
structure Codec where
  canEnc : Char → Bool
  encChar : Char → List Nat
  dec : List Nat → List Char

/-- UTF-8 bytes of one Unicode scalar value. -/
def charUtf8 (c : Char) : List Nat :=
  let v := c.toNat
  if v < 0x80 then [v]
  else if v < 0x800 then [0xC0 + v / 64, 0x80 + v % 64]
  else if v < 0x10000 then [0xE0 + v / 4096, 0x80 + v / 64 % 64, 0x80 + v % 64]
  else [0xF0 + v / 262144, 0x80 + v / 4096 % 64, 0x80 + v / 64 % 64, 0x80 + v % 64]

/-- Valid second byte of a three-byte UTF-8 sequence with lead `b1`
(the `E0`/`ED` rows exclude overlong and surrogate encodings). -/
def cont3ok (b1 b2 : Nat) : Prop :=
  (b1 = 0xE0 → 0xA0 ≤ b2) ∧ (b1 = 0xED → b2 ≤ 0x9F) ∧ 0x80 ≤ b2 ∧ b2 < 0xC0

instance (b1 b2 : Nat) : Decidable (cont3ok b1 b2) := by unfold cont3ok; infer_instance

/-- Valid second byte of a four-byte UTF-8 sequence with lead `b1`
(the `F0`/`F4` rows exclude overlong encodings and values above `U+10FFFF`). -/
def cont4ok (b1 b2 : Nat) : Prop :=
  (b1 = 0xF0 → 0x90 ≤ b2) ∧ (b1 = 0xF4 → b2 ≤ 0x8F) ∧ 0x80 ≤ b2 ∧ b2 < 0xC0

instance (b1 b2 : Nat) : Decidable (cont4ok b1 b2) := by unfold cont4ok; infer_instance

/-- Total lenient UTF-8 decoding, fuelled so that the recursion is structural
(the wrapper `utf8Dec` supplies the list length, which always suffices):
valid sequences decode to their scalar, invalid bytes become `U+FFFD` and
decoding resumes (the replacement granularity on invalid input approximates
CPython's maximal-subpart policy; the two agree on all valid input, which is
all any claim depends on). -/
def utf8DecGo : Nat → List Nat → List Char
  | _, [] => []
  | 0, _ :: _ => []
  | fuel + 1, b1 :: t =>
    if b1 < 0x80 then Char.ofNat b1 :: utf8DecGo fuel t
    else if b1 < 0xC2 then repl :: utf8DecGo fuel t
    else if b1 < 0xE0 then
      match t with
      | [] => [repl]
      | b2 :: t2 =>
        if 0x80 ≤ b2 ∧ b2 < 0xC0 then
          Char.ofNat ((b1 - 0xC0) * 64 + (b2 - 0x80)) :: utf8DecGo fuel t2
        else repl :: utf8DecGo fuel (b2 :: t2)
    else if b1 < 0xF0 then
      match t with
      | b2 :: b3 :: t3 =>
        if cont3ok b1 b2 ∧ 0x80 ≤ b3 ∧ b3 < 0xC0 then
          Char.ofNat ((b1 - 0xE0) * 4096 + (b2 - 0x80) * 64 + (b3 - 0x80)) :: utf8DecGo fuel t3
        else repl :: utf8DecGo fuel (b2 :: b3 :: t3)
      | _ => [repl]
    else if b1 < 0xF5 then
      match t with
      | b2 :: b3 :: b4 :: t4 =>
        if cont4ok b1 b2 ∧ 0x80 ≤ b3 ∧ b3 < 0xC0 ∧ 0x80 ≤ b4 ∧ b4 < 0xC0 then
          Char.ofNat
              ((b1 - 0xF0) * 262144 + (b2 - 0x80) * 4096 + (b3 - 0x80) * 64 + (b4 - 0x80)) ::
            utf8DecGo fuel t4
        else repl :: utf8DecGo fuel (b2 :: b3 :: b4 :: t4)
      | _ => [repl]
    else repl :: utf8DecGo fuel t

/-- `bytes.decode("utf-8", errors="replace")`. -/
def utf8Dec (bs : List Nat) : List Char := utf8DecGo bs.length bs

/-- The UTF-8 codec: every character is representable. -/
def utf8Codec : Codec := ⟨fun _ => true, charUtf8, utf8Dec⟩

/-- A single-byte codec mapping code points below `limit` to themselves:
`limit = 128` is ASCII, `limit = 256` is Latin-1. -/
def mkSB (limit : Nat) : Codec :=
  ⟨fun c => decide (c.toNat < limit), fun c => [c.toNat],
   List.map fun b => if b < limit then Char.ofNat b else repl⟩

/-- The codec lookup key, following Python's codec-name normalization
(lower case, hyphens and spaces to underscores). -/
def pyCodecKey (s : String) : String :=
  String.mk (s.data.map fun c => if c.toLower = '-' ∨ c.toLower = ' ' then '_' else c.toLower)

/-- Modelled from the spec: the platform text codec layer (spec section 6) is
an external collaborator of `src/backend/main.py`, exposed as
`decode(bytes, name, errorPolicy)` / `encode(text, name, errorPolicy)` with a
lookup failure for unknown names.  It is modelled here on the codecs the
claims exercise: UTF-8 in full, ASCII and Latin-1 as single-byte codecs, and
cp932 / EUC-JP on their ASCII-compatible single-byte subset.  Names outside
this table are "unknown to the codec layer". -/
def codecLookup (name : String) : Option Codec :=
  match pyCodecKey name with
  | "utf_8" => some utf8Codec
  | "utf8" => some utf8Codec
  | "u8" => some utf8Codec
  | "ascii" => some (mkSB 128)
  | "us_ascii" => some (mkSB 128)
  | "latin_1" => some (mkSB 256)
  | "latin1" => some (mkSB 256)
  | "iso_8859_1" => some (mkSB 256)
  | "iso8859_1" => some (mkSB 256)
  | "cp932" => some (mkSB 128)
  | "euc_jp" => some (mkSB 128)
  | _ => none

/-- How a strict encode can fail: unknown codec name (`LookupError`) or a
character the codec cannot represent (`UnicodeEncodeError`). -/
inductive EncFail where
  | lookupFailed : EncFail
  | unrepresentable : EncFail
deriving DecidableEq

/-- `text.encode(name, errors="strict")`: fails on an unknown name or on any
unrepresentable character, otherwise concatenates the per-character bytes. -/
def strictEncode (name : String) (cs : List Char) : Except EncFail (List Nat) :=
  match codecLookup name with
  | none => Except.error EncFail.lookupFailed
  | some cd =>
    if cs.all cd.canEnc then Except.ok ((cs.map cd.encChar).flatten)
    else Except.error EncFail.unrepresentable

/-- `bytes.decode(name, errors="replace")`: `none` is a `LookupError` for an
unknown codec name; for a known codec lenient decoding is total. -/
def lenientDecode (name : String) (bs : List Nat) : Option (List Char) :=
  (codecLookup name).map fun cd => cd.dec bs

example : strictEncode "ascii" "abé".data = Except.error EncFail.unrepresentable := by decide
example : strictEncode "bogus" "ab".data = Except.error EncFail.lookupFailed := by decide
example : strictEncode "UTF-8" "aé".data = Except.ok [97, 195, 169] := by decide
example : lenientDecode "utf-8" [97, 195, 169] = some "aé".data := by decide
example : lenientDecode "utf-8" [97, 255] = some ['a', repl] := by decide
example : utf8Dec [0xE3, 0x81, 0x82] = ['あ'] := by decide
example : lenientDecode "bogus" [97] = none := by decide

/-! ### File classification and base64. -/

/-- Index of the last occurrence of `c`, Python `str.rfind` (as an option). -/
def lastIdxOf (c : Char) (cs : List Char) : Option Nat :=
  match (cs.reverse.findIdx? fun x => x == c) with
  | none => none
  | some i => some (cs.length - 1 - i)

/-- The extension component of CPython `os.path.splitext` (POSIX rules): the
suffix from the last dot after the last slash, unless every character between
them is a dot (so dotfiles such as `.bashrc` have no extension). -/
def splitextExt (p : String) : String :=
  let cs := p.data
  let sep : Int := match lastIdxOf '/' cs with | some i => (i : Int) | none => -1
  let dot : Int := match lastIdxOf '.' cs with | some i => (i : Int) | none => -1
  if sep < dot then
    let fi := (sep + 1).toNat
    if ((cs.drop fi).take (dot.toNat - fi)).any fun x => x != '.' then
      String.mk (cs.drop dot.toNat)
    else ""
  else ""

/-- `TEXT_EXTENSIONS` (`src/backend/main.py:145-148`). -/
def TEXT_EXTENSIONS : List String :=
  [".html", ".htm", ".css", ".js", ".json", ".xml", ".txt", ".csv", ".svg", ".md", ".php"]

/-- `is_text_file` (`src/backend/main.py:150-152`):
`os.path.splitext(path)[1].lower() in TEXT_EXTENSIONS`. -/
def is_text_file (path : String) : Bool :=
  TEXT_EXTENSIONS.contains (String.mk ((splitextExt path).data.map Char.toLower))

example : is_text_file "/site/index.HTML" = true := by decide
example : is_text_file "/img/logo.png" = false := by decide
example : is_text_file "/etc/passwd" = false := by decide
example : is_text_file "/a/.bashrc" = false := by decide

/-- The base64 alphabet. -/
def b64Table : List Char :=
  "ABCDEFGHIJKLMNOPQRSTUVWXYZabcdefghijklmnopqrstuvwxyz0123456789+/".data

/-- The base64 digit of a 6-bit value. -/
def b64Char (n : Nat) : Char := b64Table.getD n 'A'

/-- `base64.b64encode` over byte lists (standard alphabet, `=` padding). -/
def b64 : List Nat → List Char
  | [] => []
  | [a] => [b64Char (a / 4), b64Char (a % 4 * 16), '=', '=']
  | [a, b] => [b64Char (a / 4), b64Char (a % 4 * 16 + b / 16), b64Char (b % 16 * 4), '=']
  | a :: b :: c :: t =>
    b64Char (a / 4) :: b64Char (a % 4 * 16 + b / 16) :: b64Char (b % 16 * 4 + c / 64) ::
      b64Char (c % 64) :: b64 t

example : b64 [137, 80, 78, 71] = "iVBORw==".data := by decide
example : b64 [77, 97, 110] = "TWFu".data := by decide

/-! ### The Transfer Bridge handlers.

`ftp_read` and `ftp_write` (`src/backend/main.py:192-271`) are embedded as
pure functions over oracles for their external collaborators: `fetch` stands
for one FTP session that downloads the full object (its `Except.error` is the
caught exception text re-raised as the 502 transfer error), `upload` for one
session that stores bytes, `detect` for `chardet.detect(...)["encoding"]`,
and `mime` for `mimetypes.guess_type`.  Alongside its result each handler
returns the list of remote-session events it performed, so that "no session
is opened" is the event list being empty. -/

/-- A remote-session event: one FTP connection was opened. -/
inductive Ev where
  | connect : Ev
deriving DecidableEq

/-- The read response `{content, detectedEncoding, mimeType}`. -/
structure ReadResp where
  content : String
  detectedEncoding : String
  mimeType : String
deriving DecidableEq

/-- The write request body `{path, content, encoding?}`. -/
structure WriteRequest where
  path : String
  content : String
  encoding : Option String
deriving DecidableEq

/-- Python `x or y` for an optional string: `y` when `x` is `None` or empty. -/
def pyOr (a : Option String) (b : String) : String :=
  match a with
  | some s => if s = "" then b else s
  | none => b

/-- `mimetypes.guess_type(path)[0] or "application/octet-stream"`. -/
def guessMime (mime : String → Option String) (path : String) : String :=
  pyOr (mime path) "application/octet-stream"

/-- The encoding resolution of the text branch of `ftp_read`
(`src/backend/main.py:214-219`): the meta declaration wins over the chardet
guess, `utf-8` when chardet reports nothing, all through
`normalize_encoding`. -/
def resolveEncoding (detect : List Nat → Option String) (raw : List Nat) : String :=
  normalize_encoding (pyOr (extract_meta_charset raw) (pyOr (detect raw) "utf-8"))

/-- `ftp_read` (`src/backend/main.py:192-238`): sanitize, download through
one session, then decode text files (lenient, with the `LookupError` fallback
to utf-8 of lines 221-225) or base64-encode binary files. -/
def ftp_read (root : String) (fetch : String → Except String (List Nat))
    (detect : List Nat → Option String) (mime : String → Option String)
    (path : String) : Except Err ReadResp × List Ev :=
  match safe_path root path with
  | Except.error e => (Except.error e, [])
  | Except.ok ftpPath =>
    match fetch ftpPath with
    | Except.error e => (Except.error (Err.transferError e), [Ev.connect])
    | Except.ok raw =>
      let mimeType := guessMime mime path
      if is_text_file path then
        let encoding := resolveEncoding detect raw
        match lenientDecode encoding raw with
        | some cs => (Except.ok ⟨String.mk cs, encoding, mimeType⟩, [Ev.connect])
        | none => (Except.ok ⟨String.mk (utf8Dec raw), "utf-8", mimeType⟩, [Ev.connect])
      else
        (Except.ok ⟨String.mk (b64 raw), "binary", mimeType⟩, [Ev.connect])

/-- The target encoding of `ftp_write`
(`src/backend/main.py:253`): `normalize_encoding(req.encoding or "utf-8")`. -/
def writeEncoding (req : WriteRequest) : String :=
  normalize_encoding (pyOr req.encoding "utf-8")

/-- `ftp_write` (`src/backend/main.py:246-271`): sanitize, strictly encode
(an encode or lookup failure is the 400 encode error, raised before any
session exists), then upload through one session. -/
def ftp_write (root : String) (upload : String → List Nat → Except String Unit)
    (req : WriteRequest) : Except Err Unit × List Ev :=
  match safe_path root req.path with
  | Except.error e => (Except.error e, [])
  | Except.ok ftpPath =>
    match strictEncode (writeEncoding req) req.content.data with
    | Except.error _ => (Except.error (Err.encodeError (writeEncoding req)), [])
    | Except.ok bytes =>
      match upload ftpPath bytes with
      | Except.error e => (Except.error (Err.transferError e), [Ev.connect])
      | Except.ok _ => (Except.ok (), [Ev.connect])

example :
    ftp_read "/" (fun _ => Except.ok [104, 105]) (fun _ => none) (fun _ => none) "/a.txt" =
      (Except.ok ⟨"hi", "utf-8", "application/octet-stream"⟩, [Ev.connect]) := by decide
example :
    ftp_write "/" (fun _ _ => Except.ok ()) ⟨"/a.txt", "é", some "ascii"⟩ =
      (Except.error (Err.encodeError "ascii"), []) := by decide

/-! ### Claim theorems. -/

/-- C2: for every input path, if the normalized form contains a `..` segment
(begins with `..` or contains `/../`) then `safe_path` fails with the invalid
path error; otherwise it succeeds and the result is the configured root
(trailing slashes stripped) prefixed exactly once onto the normalized path
(leading slashes stripped), so the root is always a prefix of the result. -/
theorem C2_sanitizer_dichotomy (root p : String) :
    (escapesRoot (normalizedChars p) = true →
      safe_path root p = Except.error Err.invalidPath) ∧
    (escapesRoot (normalizedChars p) = false →
      safe_path root p = Except.ok (String.mk (rstripSlash root.data ++ '/' ::
        (normalizedChars p).dropWhile fun c => c == '/')) ∧
      ∀ r, safe_path root p = Except.ok r →
        (rstripSlash root.data ++ ['/']) <+: r.data) := by
  constructor
  · intro h
    simp [safe_path, h]
  · intro h
    constructor
    · simp [safe_path, h]
    · intro r hr
      simp only [safe_path, h, Bool.false_eq_true, if_false, Except.ok.injEq] at hr
      subst hr
      exact ⟨(normalizedChars p).dropWhile fun c => c == '/', by simp⟩

/-- C2 witness: the dichotomy applied at the rejected path `../x` and at the
accepted path `a/b` under root `/base`. -/
theorem C2_witness :
    safe_path "/base" "../x" = Except.error Err.invalidPath ∧
    safe_path "/base" "a/b" = Except.ok "/base/a/b" := by
  constructor
  · exact (C2_sanitizer_dichotomy "/base" "../x").1 (by decide)
  · exact ((C2_sanitizer_dichotomy "/base" "a/b").2 (by decide)).1

/-- C1 counterexample: on the exact input `"/../../etc/passwd"` the claim
fails: normalization collapses the leading `..` segments, so `safe_path`
succeeds with `/etc/passwd`, the handler does not return the invalid-path
error, and a remote session is opened (the download oracle is consulted). -/
theorem C1_counterexample :
    (ftp_read "/" (fun p => Except.error p) (fun _ => none) (fun _ => none)
        "/../../etc/passwd").1 ≠ Except.error Err.invalidPath ∧
    (ftp_read "/" (fun p => Except.error p) (fun _ => none) (fun _ => none)
        "/../../etc/passwd").2 = [Ev.connect] ∧
    safe_path "/" "/../../etc/passwd" = Except.ok "/etc/passwd" := by decide

/-- C1 amended: for the input path `"/../../etc/passwd"` the Path Sanitizer
does not fail; `os.path.normpath` collapses the leading `..` segments at the
root, `safe_path` succeeds with the root-prefixed `etc/passwd`, and the read
then opens a remote session for that path.  Sanitizer failures, when they do
occur, still short-circuit the read before any session is opened. -/
theorem C1_traversal_collapsed (root : String) (fetch : String → Except String (List Nat))
    (detect : List Nat → Option String) (mime : String → Option String) :
    safe_path root "/../../etc/passwd" =
      Except.ok (String.mk (rstripSlash root.data ++ "/etc/passwd".data)) ∧
    (ftp_read root fetch detect mime "/../../etc/passwd").2 = [Ev.connect] ∧
    (∀ path e, safe_path root path = Except.error e →
      ftp_read root fetch detect mime path = (Except.error e, [])) := by
  have hesc : escapesRoot (normalizedChars "/../../etc/passwd") = false := by decide
  have hdrop : (normalizedChars "/../../etc/passwd").dropWhile (fun c => c == '/') =
      "etc/passwd".data := by decide
  have hsp : safe_path root "/../../etc/passwd" =
      Except.ok (String.mk (rstripSlash root.data ++ "/etc/passwd".data)) := by
    simp [safe_path, hesc, hdrop]
  refine ⟨hsp, ?_, ?_⟩
  · simp only [ftp_read, hsp]
    cases hf : fetch (String.mk (rstripSlash root.data ++ "/etc/passwd".data)) <;>
      simp [hf, show is_text_file "/../../etc/passwd" = false from by decide]
  · intro path e h
    simp [ftp_read, h]

/-- C1 witness: the amended statement applied at root `/`, with the sanitizer
short-circuit discharged at the genuinely rejected path `a/../../b`. -/
theorem C1_witness :
    safe_path "/" "/../../etc/passwd" =
      Except.ok (String.mk (rstripSlash "/".data ++ "/etc/passwd".data)) ∧
    (ftp_read "/" (fun _ => Except.ok [1, 2]) (fun _ => none) (fun _ => none)
        "/../../etc/passwd").2 = [Ev.connect] ∧
    ftp_read "/" (fun _ => Except.ok [1, 2]) (fun _ => none) (fun _ => none) "a/../../b" =
      (Except.error Err.invalidPath, []) := by
  have h := C1_traversal_collapsed "/" (fun _ => Except.ok [1, 2]) (fun _ => none) (fun _ => none)
  exact ⟨h.1, h.2.1, h.2.2 "a/../../b" Err.invalidPath (by decide)⟩

/-- C8: alias canonicalization is idempotent on every known alias spelling,
that is on every key of the `ENCODING_ALIASES` dictionary. -/
theorem C8_alias_idempotent :
    ∀ x ∈ aliasKeys, normalize_encoding (normalize_encoding x) = normalize_encoding x := by
  decide

/-- C8 witness: idempotence applied to the known alias spelling `sjis`. -/
theorem C8_witness :
    "sjis" ∈ aliasKeys ∧
      normalize_encoding (normalize_encoding "sjis") = normalize_encoding "sjis" :=
  ⟨by decide, C8_alias_idempotent "sjis" (by decide)⟩

/-- C9: a read of a path classified as binary never consults the encoding
resolution (the result is the same for any two detector oracles), its content
is the base64 encoding of the payload, and its `detectedEncoding` is exactly
`"binary"`. -/
theorem C9_binary_read (root : String) (fetch : String → Except String (List Nat))
    (detect1 detect2 : List Nat → Option String) (mime : String → Option String)
    (path ftpPath : String) (raw : List Nat)
    (hbin : is_text_file path = false)
    (hsp : safe_path root path = Except.ok ftpPath)
    (hf : fetch ftpPath = Except.ok raw) :
    (ftp_read root fetch detect1 mime path).1 =
      Except.ok ⟨String.mk (b64 raw), "binary", guessMime mime path⟩ ∧
    ftp_read root fetch detect1 mime path = ftp_read root fetch detect2 mime path := by
  constructor
  · simp [ftp_read, hsp, hf, hbin]
  · simp [ftp_read, hsp, hf, hbin]

/-- C9 witness: reading `/img.png` (a binary extension) with a PNG header
payload, under a detector that would otherwise claim ASCII. -/
theorem C9_witness :
    (ftp_read "/" (fun _ => Except.ok [137, 80, 78, 71]) (fun _ => some "ascii")
        (fun _ => none) "/img.png").1 =
      Except.ok ⟨"iVBORw==", "binary", "application/octet-stream"⟩ ∧
    ftp_read "/" (fun _ => Except.ok [137, 80, 78, 71]) (fun _ => some "ascii")
        (fun _ => none) "/img.png" =
      ftp_read "/" (fun _ => Except.ok [137, 80, 78, 71]) (fun _ => none)
        (fun _ => none) "/img.png" := by
  have h := C9_binary_read "/" (fun _ => Except.ok [137, 80, 78, 71]) (fun _ => some "ascii")
    (fun _ => none) (fun _ => none) "/img.png" "/img.png" [137, 80, 78, 71]
    (by decide) (by decide) rfl
  exact ⟨h.1, h.2⟩

/-- C3: on a write request the missing encoding defaults to `utf-8`, a
present encoding is canonicalized through the alias table, a content
character unrepresentable in the resulting codec makes the whole write fail
with the 400 encode error and an empty session trace (so nothing is ever
stored, truncated or substituted), and that error is distinct from the 502
transfer error used for transport faults. -/
theorem C3_write_encode_failure (root : String)
    (upload : String → List Nat → Except String Unit) (req : WriteRequest) :
    (req.encoding = none → writeEncoding req = "utf-8") ∧
    (∀ s, req.encoding = some s → s ≠ "" → writeEncoding req = normalize_encoding s) ∧
    (∀ ftpPath codec, safe_path root req.path = Except.ok ftpPath →
      codecLookup (writeEncoding req) = some codec →
      (∃ c ∈ req.content.data, codec.canEnc c = false) →
      ftp_write root upload req = (Except.error (Err.encodeError (writeEncoding req)), []) ∧
      (Err.encodeError (writeEncoding req)).status = 400) ∧
    (∀ m, (Err.transferError m).status = 502 ∧
      Err.encodeError (writeEncoding req) ≠ Err.transferError m) := by
  refine ⟨?_, ?_, ?_, ?_⟩
  · intro h
    simp only [writeEncoding, h, pyOr]
    decide
  · intro s h hne
    simp [writeEncoding, h, pyOr, hne]
  · intro ftpPath codec hsp hlook hex
    have hall : req.content.data.all codec.canEnc = false := by
      rw [List.all_eq_false]
      obtain ⟨c, hc, hb⟩ := hex
      exact ⟨c, hc, by simp [hb]⟩
    have henc : strictEncode (writeEncoding req) req.content.data =
        Except.error EncFail.unrepresentable := by
      simp [strictEncode, hlook, hall]
    exact ⟨by simp [ftp_write, hsp, henc], rfl⟩
  · intro m
    exact ⟨rfl, by simp⟩

/-- C3 witness: the default applied to a request without encoding, and the
encode failure applied to writing `né` as ASCII. -/
theorem C3_witness :
    writeEncoding ⟨"/f.txt", "x", none⟩ = "utf-8" ∧
    writeEncoding ⟨"/f.txt", "né", some "ascii"⟩ = normalize_encoding "ascii" ∧
    ftp_write "/" (fun _ _ => Except.ok ()) ⟨"/f.txt", "né", some "ascii"⟩ =
      (Except.error (Err.encodeError "ascii"), []) ∧
    (Err.encodeError "ascii").status = 400 ∧
    (Err.transferError "boom").status = 502 ∧
    Err.encodeError "ascii" ≠ Err.transferError "boom" := by
  have h1 := C3_write_encode_failure "/" (fun _ _ => Except.ok ()) ⟨"/f.txt", "x", none⟩
  have h2 := C3_write_encode_failure "/" (fun _ _ => Except.ok ()) ⟨"/f.txt", "né", some "ascii"⟩
  have h3 := h2.2.2.1 "/f.txt" (mkSB 128) (by decide) rfl ⟨'é', by decide, by decide⟩
  exact ⟨h1.1 rfl, h2.2.1 "ascii" rfl (by decide), h3.1, h3.2, (h2.2.2.2 "boom").1,
    (h2.2.2.2 "boom").2⟩

/-- C10: when the content of a write request has a character the
canonicalized target codec cannot represent, the handler fails with the
encode error while its session trace is empty and its result is independent
of the upload oracle — no FTP session is connected and the remote store is
left unchanged. -/
theorem C10_encode_atomicity (root : String)
    (upload1 upload2 : String → List Nat → Except String Unit) (req : WriteRequest)
    (ftpPath : String) (codec : Codec)
    (hsp : safe_path root req.path = Except.ok ftpPath)
    (hlook : codecLookup (writeEncoding req) = some codec)
    (hex : ∃ c ∈ req.content.data, codec.canEnc c = false) :
    ftp_write root upload1 req = (Except.error (Err.encodeError (writeEncoding req)), []) ∧
    ftp_write root upload1 req = ftp_write root upload2 req := by
  have hall : req.content.data.all codec.canEnc = false := by
    rw [List.all_eq_false]
    obtain ⟨c, hc, hb⟩ := hex
    exact ⟨c, hc, by simp [hb]⟩
  have henc : strictEncode (writeEncoding req) req.content.data =
      Except.error EncFail.unrepresentable := by
    simp [strictEncode, hlook, hall]
  constructor
  · simp [ftp_write, hsp, henc]
  · simp [ftp_write, hsp, henc]

/-- Lenient UTF-8 decoding inverts per-character UTF-8 encoding, for any
fuel at least the byte length. -/
theorem utf8DecGo_roundtrip : ∀ (t : List Char) (fuel : Nat),
    ((t.map charUtf8).flatten).length ≤ fuel →
    utf8DecGo fuel ((t.map charUtf8).flatten) = t := by
  intro t
  induction t with
  | nil =>
    intro fuel _
    cases fuel <;> rfl
  | cons c t ih =>
    intro fuel hlen
    have hval : c.toNat < 55296 ∨ (57343 < c.toNat ∧ c.toNat < 1114112) := c.valid
    simp only [List.map_cons, List.flatten_cons] at hlen ⊢
    rcases Nat.lt_or_ge c.toNat 0x80 with h1 | h1
    · have hc : charUtf8 c = [c.toNat] := by
        simp only [charUtf8]
        rw [if_pos h1]
      rw [hc] at hlen ⊢
      simp only [List.cons_append, List.nil_append, List.length_cons] at hlen ⊢
      cases fuel with
      | zero => omega
      | succ f =>
        simp only [utf8DecGo]
        rw [if_pos h1, Char.ofNat_toNat]
        exact congrArg (List.cons c) (ih f (by omega))
    · rcases Nat.lt_or_ge c.toNat 0x800 with h2 | h2
      · have hc : charUtf8 c = [0xC0 + c.toNat / 64, 0x80 + c.toNat % 64] := by
          simp only [charUtf8]
          rw [if_neg (by omega), if_pos h2]
        rw [hc] at hlen ⊢
        simp only [List.cons_append, List.nil_append, List.length_cons] at hlen ⊢
        cases fuel with
        | zero => omega
        | succ f =>
          simp only [utf8DecGo]
          rw [if_neg (by omega), if_neg (by omega), if_pos (by omega), if_pos (by omega)]
          have hval2 : (0xC0 + c.toNat / 64 - 0xC0) * 64 + (0x80 + c.toNat % 64 - 0x80)
              = c.toNat := by omega
          rw [hval2, Char.ofNat_toNat]
          exact congrArg (List.cons c) (ih f (by omega))
      · rcases Nat.lt_or_ge c.toNat 0x10000 with h3 | h3
        · have hc : charUtf8 c =
              [0xE0 + c.toNat / 4096, 0x80 + c.toNat / 64 % 64, 0x80 + c.toNat % 64] := by
            simp only [charUtf8]
            rw [if_neg (by omega), if_neg (by omega), if_pos h3]
          rw [hc] at hlen ⊢
          simp only [List.cons_append, List.nil_append, List.length_cons] at hlen ⊢
          cases fuel with
          | zero => omega
          | succ f =>
            simp only [utf8DecGo]
            rw [if_neg (by omega), if_neg (by omega), if_neg (by omega), if_pos (by omega),
              if_pos (by simp only [cont3ok]; omega)]
            have hval2 : (0xE0 + c.toNat / 4096 - 0xE0) * 4096 +
                (0x80 + c.toNat / 64 % 64 - 0x80) * 64 + (0x80 + c.toNat % 64 - 0x80)
                = c.toNat := by omega
            rw [hval2, Char.ofNat_toNat]
            exact congrArg (List.cons c) (ih f (by omega))
        · have hc : charUtf8 c =
              [0xF0 + c.toNat / 262144, 0x80 + c.toNat / 4096 % 64,
               0x80 + c.toNat / 64 % 64, 0x80 + c.toNat % 64] := by
            simp only [charUtf8]
            rw [if_neg (by omega), if_neg (by omega), if_neg (by omega)]
          rw [hc] at hlen ⊢
          simp only [List.cons_append, List.nil_append, List.length_cons] at hlen ⊢
          cases fuel with
          | zero => omega
          | succ f =>
            simp only [utf8DecGo]
            rw [if_neg (by omega), if_neg (by omega), if_neg (by omega), if_neg (by omega),
              if_pos (by omega), if_pos (by simp only [cont4ok]; omega)]
            have hval2 : (0xF0 + c.toNat / 262144 - 0xF0) * 262144 +
                (0x80 + c.toNat / 4096 % 64 - 0x80) * 4096 +
                (0x80 + c.toNat / 64 % 64 - 0x80) * 64 + (0x80 + c.toNat % 64 - 0x80)
                = c.toNat := by omega
            rw [hval2, Char.ofNat_toNat]
            exact congrArg (List.cons c) (ih f (by omega))

/-- The single-byte codecs invert their own encoding on representable text. -/
theorem sbDec_roundtrip (limit : Nat) :
    ∀ t : List Char, (∀ c ∈ t, c.toNat < limit) →
    (mkSB limit).dec ((t.map (mkSB limit).encChar).flatten) = t := by
  intro t
  induction t with
  | nil => intro _; rfl
  | cons c t ih =>
    intro h
    have hc : c.toNat < limit := h c (List.mem_cons_self c t)
    simp only [List.map_cons, List.flatten_cons, mkSB, List.cons_append, List.nil_append,
      List.map]
    rw [if_pos hc, Char.ofNat_toNat]
    exact congrArg (List.cons c) (ih fun x hx => h x (List.mem_cons_of_mem c hx))

/-- The shape of every codec the modelled lookup can return. -/
theorem codecLookup_shape (name : String) (codec : Codec)
    (h : codecLookup name = some codec) :
    codec = utf8Codec ∨ codec = mkSB 128 ∨ codec = mkSB 256 := by
  unfold codecLookup at h
  split at h <;> simp_all

/-- C7: for every text and every codec known to the layer in which all its
characters are representable, the strict encode of the write path succeeds
and the lenient decode of the read path maps the resulting bytes back to
exactly the original text. -/
theorem C7_encode_decode_roundtrip (name : String) (codec : Codec) (t : List Char)
    (hlook : codecLookup name = some codec)
    (hrep : ∀ c ∈ t, codec.canEnc c = true) :
    ∃ bs, strictEncode name t = Except.ok bs ∧ lenientDecode name bs = some t := by
  have hall : t.all codec.canEnc = true := by
    rw [List.all_eq_true]
    exact hrep
  refine ⟨(t.map codec.encChar).flatten, ?_, ?_⟩
  · simp [strictEncode, hlook, hall]
  · simp only [lenientDecode, hlook, Option.map_some']
    refine congrArg some ?_
    rcases codecLookup_shape name codec hlook with hsh | hsh | hsh
    · subst hsh
      exact utf8DecGo_roundtrip t _ le_rfl
    · subst hsh
      exact sbDec_roundtrip 128 t fun c hc => of_decide_eq_true (hrep c hc)
    · subst hsh
      exact sbDec_roundtrip 256 t fun c hc => of_decide_eq_true (hrep c hc)

/-- C7 witness: the roundtrip applied to Japanese plus ASCII text under
UTF-8. -/
theorem C7_witness :
    ∃ bs, strictEncode "utf-8" "こんにちはabc".data = Except.ok bs ∧
      lenientDecode "utf-8" bs = some "こんにちはabc".data :=
  C7_encode_decode_roundtrip "utf-8" utf8Codec "こんにちはabc".data rfl (by decide)

/-- Splitting a successful `Option.orElse`. -/
theorem orElse_eq_some {α : Type} (o : Option α) (f : Unit → Option α) (b : α)
    (h : o.orElse f = some b) : o = some b ∨ f () = some b := by
  cases o <;> simp_all [Option.orElse]

/-- Soundness of the matcher: a captured group is nonempty and every one of
its characters satisfies the predicate of a group token of the pattern. -/
theorem mt_sound : ∀ (toks : List Tok) (cs g : List Char), mt toks cs = some g →
    ∃ p, p ∈ grpPreds toks ∧ g ≠ [] ∧ ∀ c ∈ g, p c = true := by
  intro toks
  induction toks with
  | nil =>
    intro cs g h
    simp [mt] at h
  | cons tk rest ih =>
    intro cs g h
    cases tk with
    | grpPlus p =>
      cases rest with
      | nil =>
        simp only [mt] at h
        split at h
        · exact absurd h (by simp)
        · rename_i hne
          injection h with h2
          subst h2
          refine ⟨p, by simp [grpPreds], ?_, fun c hc => List.mem_takeWhile_imp hc⟩
          intro h0
          exact hne (by simp [h0])
      | cons tk2 rest2 =>
        simp [mt] at h
    | litCI l =>
      simp only [mt] at h
      split at h
      · obtain ⟨p, hp, hg, hall⟩ := ih _ _ h
        exact ⟨p, by simpa [grpPreds] using hp, hg, hall⟩
      · exact absurd h (by simp)
    | oneC p0 =>
      cases cs with
      | nil => simp [mt] at h
      | cons c cs2 =>
        simp only [mt] at h
        split at h
        · obtain ⟨p, hp, hg, hall⟩ := ih _ _ h
          exact ⟨p, by simpa [grpPreds] using hp, hg, hall⟩
        · exact absurd h (by simp)
    | optC p0 =>
      cases cs with
      | nil =>
        simp only [mt] at h
        obtain ⟨p, hp, hg, hall⟩ := ih _ _ h
        exact ⟨p, by simpa [grpPreds] using hp, hg, hall⟩
      | cons c cs2 =>
        simp only [mt] at h
        have hsome : mt rest cs2 = some g ∨ mt rest (c :: cs2) = some g := by
          split at h
          · rcases orElse_eq_some _ _ _ h with h2 | h2
            · exact Or.inl h2
            · exact Or.inr h2
          · exact Or.inr h
        rcases hsome with h2 | h2 <;>
          · obtain ⟨p, hp, hg, hall⟩ := ih _ _ h2
            exact ⟨p, by simpa [grpPreds] using hp, hg, hall⟩
    | starC p0 =>
      simp only [mt] at h
      obtain ⟨k, _, hk⟩ := List.exists_of_findSome?_eq_some h
      obtain ⟨p, hp, hg, hall⟩ := ih _ _ hk
      exact ⟨p, by simpa [grpPreds] using hp, hg, hall⟩
    | plusC p0 =>
      simp only [mt] at h
      obtain ⟨k, _, hk⟩ := List.exists_of_findSome?_eq_some h
      obtain ⟨p, hp, hg, hall⟩ := ih _ _ hk
      exact ⟨p, by simpa [grpPreds] using hp, hg, hall⟩

/-- Soundness of the search wrapper. -/
theorem reSearch_sound : ∀ (toks : List Tok) (cs g : List Char),
    reSearch toks cs = some g →
    ∃ p, p ∈ grpPreds toks ∧ g ≠ [] ∧ ∀ c ∈ g, p c = true := by
  intro toks cs
  induction cs with
  | nil =>
    intro g h
    exact mt_sound toks [] g (by simpa [reSearch] using h)
  | cons c cs2 ih =>
    intro g h
    simp only [reSearch] at h
    rcases orElse_eq_some _ _ _ h with h2 | h2
    · exact mt_sound toks (c :: cs2) g h2
    · exact ih g h2

/-- A character captured by the first pattern's group is not whitespace. -/
theorem pat1Group_no_space (c : Char) (h : pat1Group c = true) : isPySpace c = false := by
  by_cases hs : isPySpace c = true
  · simp [pat1Group, hs] at h
  · exact Bool.eq_false_iff.mpr hs

/-- A character captured by the second pattern's group is not whitespace. -/
theorem pat2Group_no_space (c : Char) (h : pat2Group c = true) : isPySpace c = false := by
  by_cases hs : isPySpace c = true
  · simp [pat2Group, hs] at h
  · exact Bool.eq_false_iff.mpr hs

/-- `dropWhile` is the identity when no element satisfies the predicate. -/
theorem dropWhile_of_all_false {p : Char → Bool} :
    ∀ l : List Char, (∀ c ∈ l, p c = false) → l.dropWhile p = l := by
  intro l h
  cases l with
  | nil => rfl
  | cons c t => simp [List.dropWhile, h c (List.mem_cons_self c t)]

/-- `pyStrip` is the identity on space-free text. -/
theorem pyStrip_of_no_space (g : List Char) (h : ∀ c ∈ g, isPySpace c = false) :
    pyStrip g = g := by
  unfold pyStrip
  rw [dropWhile_of_all_false g h,
    dropWhile_of_all_false g.reverse (fun c hc => h c (List.mem_reverse.mp hc)),
    List.reverse_reverse]

/-- `tagGroup` of a nonempty space-free group is a nonempty name. -/
theorem tagGroup_ne_empty (g : List Char) (hg : g ≠ [])
    (hsp : ∀ c ∈ g, isPySpace c = false) : tagGroup g ≠ "" := by
  intro hc
  have hd := congrArg String.data hc
  simp only [tagGroup] at hd
  rw [pyStrip_of_no_space g hsp] at hd
  simp at hd
  exact hg hd

/-- A successfully extracted charset declaration is a nonempty name. -/
theorem extract_meta_charset_ne_empty (raw : List Nat) (d : String)
    (h : extract_meta_charset raw = some d) : d ≠ "" := by
  unfold extract_meta_charset at h
  cases h1 : reSearch pat1 (snippetOf raw) with
  | some g =>
    rw [h1] at h
    obtain ⟨p, hp, hg, hall⟩ := reSearch_sound pat1 (snippetOf raw) g h1
    have hp1 : p = pat1Group := by
      have he : grpPreds pat1 = [pat1Group] := rfl
      rw [he] at hp
      exact List.mem_singleton.mp hp
    subst hp1
    injection h with h2
    subst h2
    exact tagGroup_ne_empty g hg fun c hc => pat1Group_no_space c (hall c hc)
  | none =>
    rw [h1] at h
    simp only [Option.map_eq_some'] at h
    obtain ⟨g, hg1, hg2⟩ := h
    obtain ⟨p, hp, hg, hall⟩ := reSearch_sound pat2 (snippetOf raw) g hg1
    have hp2 : p = pat2Group := by
      have he : grpPreds pat2 = [pat2Group] := rfl
      rw [he] at hp
      exact List.mem_singleton.mp hp
    subst hp2
    subst hg2
    exact tagGroup_ne_empty g hg fun c hc => pat2Group_no_space c (hall c hc)

/-- C5: whenever the payload carries an embedded charset declaration, the
resolved encoding of the read path is the alias-canonicalized declared
charset, whatever the statistical detector answers; in particular a declared
`shift_jis` resolves to `cp932`. -/
theorem C5_declared_charset_priority (detect : List Nat → Option String)
    (raw : List Nat) (d : String)
    (hmeta : extract_meta_charset raw = some d) :
    resolveEncoding detect raw = normalize_encoding d ∧
    (d = "shift_jis" → resolveEncoding detect raw = "cp932") := by
  have hne : d ≠ "" := extract_meta_charset_ne_empty raw d hmeta
  have h1 : resolveEncoding detect raw = normalize_encoding d := by
    simp [resolveEncoding, hmeta, pyOr, hne]
  refine ⟨h1, fun hd => ?_⟩
  rw [h1, hd]
  decide

/-- C5 witness: bytes declaring `charset="shift_jis"` resolve to `cp932`
under a detector insisting on Latin-1. -/
theorem C5_witness :
    resolveEncoding (fun _ => some "ISO-8859-1")
        ("<meta charset=\"shift_jis\">x".data.map Char.toNat) = "cp932" := by
  have h := C5_declared_charset_priority (fun _ => some "ISO-8859-1")
    ("<meta charset=\"shift_jis\">x".data.map Char.toNat) "shift_jis" (by decide)
  exact h.2 rfl

/-- C6: the embedded-declaration search depends only on the ASCII bytes among
the first 4096 bytes of the payload (so nothing past byte 4096 and no
non-ASCII byte is ever examined), and the explicit `charset=` pattern is
tried first: when it matches, its stripped lower-cased group is the result
outright; only when it fails is the `content=...charset=` pattern consulted. -/
theorem C6_meta_scan_window (raw1 raw2 : List Nat) :
    ((raw1.take 4096).filter (fun b => decide (b < 128)) =
        (raw2.take 4096).filter (fun b => decide (b < 128)) →
      extract_meta_charset raw1 = extract_meta_charset raw2) ∧
    (∀ g, reSearch pat1 (snippetOf raw1) = some g →
      extract_meta_charset raw1 = some (tagGroup g)) ∧
    (reSearch pat1 (snippetOf raw1) = none →
      extract_meta_charset raw1 = (reSearch pat2 (snippetOf raw1)).map tagGroup) := by
  refine ⟨?_, ?_, ?_⟩
  · intro h
    have hsn : snippetOf raw1 = snippetOf raw2 := by
      simp only [snippetOf, h]
    simp [extract_meta_charset, hsn]
  · intro g hg
    simp [extract_meta_charset, hg]
  · intro hg
    simp [extract_meta_charset, hg]

/-- C4: a text-file read never fails once the payload is fetched — the
handler always produces some decoded content and some encoding decision —
and when the resolved encoding name is unknown to the codec layer the bytes
are decoded as UTF-8 with the same lenient policy and the reported decision
is exactly `"utf-8"`. -/
theorem C4_read_resolution_total (root : String) (fetch : String → Except String (List Nat))
    (detect : List Nat → Option String) (mime : String → Option String)
    (path ftpPath : String) (raw : List Nat)
    (htext : is_text_file path = true)
    (hsp : safe_path root path = Except.ok ftpPath)
    (hf : fetch ftpPath = Except.ok raw) :
    (∃ resp, (ftp_read root fetch detect mime path).1 = Except.ok resp) ∧
    (codecLookup (resolveEncoding detect raw) = none →
      (ftp_read root fetch detect mime path).1 =
        Except.ok ⟨String.mk (utf8Dec raw), "utf-8", guessMime mime path⟩) := by
  constructor
  · cases hd : lenientDecode (resolveEncoding detect raw) raw with
    | none =>
      exact ⟨⟨String.mk (utf8Dec raw), "utf-8", guessMime mime path⟩,
        by simp [ftp_read, hsp, hf, htext, hd]⟩
    | some cs =>
      exact ⟨⟨String.mk cs, resolveEncoding detect raw, guessMime mime path⟩,
        by simp [ftp_read, hsp, hf, htext, hd]⟩
  · intro hnone
    have hd : lenientDecode (resolveEncoding detect raw) raw = none := by
      simp [lenientDecode, hnone]
    simp [ftp_read, hsp, hf, htext, hd]

/-- C4 witness: reading `/a.txt` whose bytes `[255, 254]` decode nowhere and
whose detector reports the unknown name `bogus`: the read still succeeds,
falling back to lenient UTF-8 with decision `"utf-8"`. -/
theorem C4_witness :
    (∃ resp, (ftp_read "/" (fun _ => Except.ok [255, 254]) (fun _ => some "bogus")
      (fun _ => none) "/a.txt").1 = Except.ok resp) ∧
    (ftp_read "/" (fun _ => Except.ok [255, 254]) (fun _ => some "bogus")
        (fun _ => none) "/a.txt").1 =
      Except.ok ⟨String.mk (utf8Dec [255, 254]), "utf-8",
        guessMime (fun _ => none) "/a.txt"⟩ := by
  have h := C4_read_resolution_total "/" (fun _ => Except.ok [255, 254])
    (fun _ => some "bogus") (fun _ => none) "/a.txt" "/a.txt" [255, 254]
    (by decide) (by decide) rfl
  exact ⟨h.1, h.2 rfl⟩

/-- C10 witness: writing `あ` as Latin-1 fails with the encode error, with an
empty session trace and the same outcome under an upload oracle that would
report success and one that would report a transport fault. -/
theorem C10_witness :
    ftp_write "/" (fun _ _ => Except.ok ()) ⟨"/f.txt", "あ", some "latin-1"⟩ =
      (Except.error (Err.encodeError "latin-1"), []) ∧
    ftp_write "/" (fun _ _ => Except.ok ()) ⟨"/f.txt", "あ", some "latin-1"⟩ =
      ftp_write "/" (fun _ _ => Except.error "down") ⟨"/f.txt", "あ", some "latin-1"⟩ := by
  have h := C10_encode_atomicity "/" (fun _ _ => Except.ok ())
    (fun _ _ => Except.error "down") ⟨"/f.txt", "あ", some "latin-1"⟩ "/f.txt" (mkSB 256)
    (by decide) rfl ⟨'あ', by decide, by decide⟩
  exact ⟨h.1, h.2⟩

/-- C6 witness: the window invariance applied to a declaration appended past
byte 4096 (it is not seen), the first pattern applied to an input that also
contains a differing `content=...charset=` declaration (the first match
wins), and the second pattern applied to an input without an explicit
`<meta ... charset=` attribute. -/
theorem C6_witness :
    extract_meta_charset
        (List.replicate 4096 32 ++ "<meta charset=utf-8>".data.map Char.toNat) =
      extract_meta_charset (List.replicate 4096 32) ∧
    extract_meta_charset
        ("<meta zz charset=utf-8>content=\"a; charset=euc-jp\"".data.map Char.toNat) =
      some "utf-8" ∧
    extract_meta_charset ("content=\"charset=ascii\"".data.map Char.toNat) =
      some "ascii" := by
  refine ⟨?_, ?_, ?_⟩
  · refine (C6_meta_scan_window
      (List.replicate 4096 32 ++ "<meta charset=utf-8>".data.map Char.toNat)
      (List.replicate 4096 32)).1 ?_
    rw [List.take_append_of_le_length (by simp only [List.length_replicate]; decide)]
  · exact (C6_meta_scan_window
      ("<meta zz charset=utf-8>content=\"a; charset=euc-jp\"".data.map Char.toNat)
      []).2.1 "utf-8".data (by decide)
  · have h := (C6_meta_scan_window
      ("content=\"charset=ascii\"".data.map Char.toNat) []).2.2 (by decide)
    rw [h]
    decide

end CmsBff
